import Mathlib

/-!
Verification development for the Cython coverage plugin
(file src/Cython/Coverage.py).

The plugin parses Cython-generated C/C++ sources: annotation comment blocks
cite an original file and line number followed (usually) by the original
code text marked with a trailing run of at least six less-than characters.
The development below embeds the plugin shallowly:

* strings are lists of characters; a scanned artifact is a list of lines
  (each line given without its trailing newline, exactly what the regular
  expressions of the source see in front of the end anchor);
* Python dictionaries are association lists; defaultdict lookups carry an
  explicit default; a plain-dict lookup that can raise KeyError is an
  Option, and a function that can raise is an Except;
* the filesystem and os.path.abspath are explicit parameters, so that the
  file-probing and file-reading behaviour of the plugin can be quantified
  over.
-/

set_option autoImplicit false

namespace CoveragePy

/-! ## Association lists standing for Python dictionaries -/

/-- First-match lookup in an association list, the shallow embedding of a
Python dictionary read. -/
def alookup {α β : Type} [DecidableEq α] : List (α × β) → α → Option β
  | [], _ => none
  | (a, b) :: l, k => if a = k then some b else alookup l k

/-- Write to an association list: overwrite an existing binding in place,
otherwise append.  Embeds a Python dictionary assignment. -/
def aset {α β : Type} [DecidableEq α] : List (α × β) → α → β → List (α × β)
  | [], k, v => [(k, v)]
  | (a, b) :: l, k, v => if a = k then (k, v) :: l else (a, b) :: aset l k v

/-- Lookup with default, the embedding of a defaultdict read. -/
def alookupD {α β : Type} [DecidableEq α] (l : List (α × β)) (k : α) (d : β) : β :=
  (alookup l k).getD d

/-- The key set of an association list, the embedding of dict.viewkeys. -/
def keysFinset {β : Type} (l : List (Nat × β)) : Finset Nat :=
  (l.map Prod.fst).toFinset

theorem alookup_aset_self {α β : Type} [DecidableEq α] (l : List (α × β)) (k : α) (v : β) :
    alookup (aset l k v) k = some v := by
  induction l with
  | nil => simp [aset, alookup]
  | cons p l ih =>
    obtain ⟨a, b⟩ := p
    by_cases h : a = k
    · simp [aset, h, alookup]
    · simp [aset, h, alookup, ih]

theorem alookup_aset_ne {α β : Type} [DecidableEq α] (l : List (α × β)) (k k' : α) (v : β)
    (h : k' ≠ k) : alookup (aset l k v) k' = alookup l k' := by
  have hk : ¬ k = k' := fun hk => h hk.symm
  induction l with
  | nil => simp [aset, alookup, hk]
  | cons p l ih =>
    obtain ⟨a, b⟩ := p
    by_cases ha : a = k
    · subst ha
      simp [aset, alookup, hk]
    · simp [aset, ha, alookup, ih]

theorem mem_keysFinset {β : Type} (l : List (Nat × β)) (n : Nat) :
    n ∈ keysFinset l ↔ (alookup l n).isSome := by
  induction l with
  | nil => simp [keysFinset, alookup]
  | cons p l ih =>
    obtain ⟨a, b⟩ := p
    by_cases h : a = n
    · subst h
      simp [keysFinset, alookup]
    · have hn : ¬ n = a := fun hn => h hn.symm
      have hl : alookup ((a, b) :: l) n = alookup l n := by simp [alookup, h]
      rw [hl]
      constructor
      · intro hmem
        have : n = a ∨ n ∈ keysFinset l := by simpa [keysFinset] using hmem
        rcases this with h1 | h1
        · exact absurd h1 hn
        · exact ih.mp h1
      · intro hs
        have hmem := ih.mpr hs
        simp only [keysFinset, List.map_cons, List.toFinset_cons, Finset.mem_insert]
        exact Or.inr (by simpa [keysFinset] using hmem)

/-- Lookup after mapping the values of an association list pointwise. -/
theorem alookup_map_snd {α β γ : Type} [DecidableEq α] (l : List (α × β)) (g : α → β → γ)
    (k : α) : alookup (l.map (fun p => (p.1, g p.1 p.2))) k = (alookup l k).map (g k) := by
  induction l with
  | nil => simp [alookup]
  | cons p l ih =>
    obtain ⟨a, b⟩ := p
    by_cases h : a = k
    · subst h
      simp [alookup]
    · simp [alookup, h, ih]

/-! ## Characters, digits and Python str.rstrip -/

/-- Python int() applied to the digit string captured by the regular
expression group ([0-9]+). -/
def natOfDigitsAux (acc : Nat) : List Char → Nat
  | [] => acc
  | c :: cs => natOfDigitsAux (acc * 10 + (c.toNat - 48)) cs

def natOfDigits (l : List Char) : Nat := natOfDigitsAux 0 l

/-- The whitespace characters stripped by Python str.rstrip(), restricted
to ASCII (the Python call would additionally strip the rare non-ASCII
whitespace characters, which the annotation text at hand does not use). -/
def isPyWhitespace (c : Char) : Bool :=
  c = ' ' || c = '\t' || c = '\n' || c = '\r' || c = '\x0b' || c = '\x0c'

/-- Python str.rstrip(): drop trailing whitespace. -/
def rstrip (l : List Char) : List Char :=
  (l.reverse.dropWhile isPyWhitespace).reverse

/-! ## The three regular expressions of Plugin._parse_lines

Source file lines 95-97.  Each matcher is the deterministic residue of the
corresponding anchored Python regular expression:

* match_source_path_line embeds re.match on the pattern
  (spaces)* slash star (space)+ quote (group1 anything) quote colon
  (group2 digits)+ end;
* match_current_code_line embeds re.match on the pattern
  (spaces)* star space (group1 anything) space hash space
  (six or more less-than signs) end;
* match_comment_end embeds re.match on the pattern (spaces)* star slash end.

Because the groups are greedy and the tails are anchored at the end of the
line, each pattern admits at most one successful decomposition: the digit
group of the header is the maximal digit suffix, and the marker run of the
code line is the maximal less-than suffix.  The matchers compute those
decompositions directly. -/

def match_source_path_line (l : List Char) : Option (List Char × Nat) :=
  match l.dropWhile (fun c => c = ' ') with
  | c1 :: c2 :: rest =>
    if c1 = '/' ∧ c2 = '*' then
      match rest with
      | c3 :: _ =>
        if c3 = ' ' then
          match rest.dropWhile (fun c => c = ' ') with
          | c4 :: rest2 =>
            if c4 = '"' then
              match rest2.reverse.takeWhile Char.isDigit,
                    rest2.reverse.dropWhile Char.isDigit with
              | d :: ds, e1 :: e2 :: grev =>
                if e1 = ':' ∧ e2 = '"' then
                  some (grev.reverse, natOfDigits (d :: ds).reverse)
                else none
              | _, _ => none
            else none
          | [] => none
        else none
      | [] => none
    else none
  | _ => none

def match_current_code_line (l : List Char) : Option (List Char) :=
  match l.dropWhile (fun c => c = ' ') with
  | c1 :: c2 :: rest =>
    if c1 = '*' ∧ c2 = ' ' then
      if 6 ≤ (rest.reverse.takeWhile (fun c => c = '<')).length then
        match rest.reverse.dropWhile (fun c => c = '<') with
        | e1 :: e2 :: e3 :: grev =>
          if e1 = ' ' ∧ e2 = '#' ∧ e3 = ' ' then some grev.reverse else none
        | _ => none
      else none
    else none
  | _ => none

def match_comment_end (l : List Char) : Bool :=
  l.dropWhile (fun c => c = ' ') = ['*', '/']

example : match_source_path_line ("/* \"foo.pyx\":10").toList
    = some (("foo.pyx").toList, 10) := by decide
example : match_source_path_line ("      /* \"a/b.pxi\":457").toList
    = some (("a/b.pxi").toList, 457) := by decide
example : match_source_path_line ("/* \"foo.pyx\":").toList = none := by decide
example : match_source_path_line ("/*\"foo.pyx\":3").toList = none := by decide
example : match_current_code_line (" * x = 1 # <<<<<<<<").toList
    = some (("x = 1").toList) := by decide
example : match_current_code_line (" * foo<<<<<<<<").toList = none := by decide
example : match_current_code_line (" * x = 1 # <<<<<").toList = none := by decide
example : match_comment_end (" */").toList = true := by decide
example : match_comment_end (" * /").toList = false := by decide

/-! ## The scanning loop of Plugin._parse_lines (source lines 99-119)

The Python code iterates one shared line iterator with an outer loop
looking for path-header lines and, after each header, an inner loop over
the same iterator looking for a code-text line or a comment-end line.
That control flow is equivalent to a single left fold over the lines with
a mode: mode none is the outer loop, mode some (filename, lineno) is the
inner loop pending for the cited file and line.  In the inner mode,
header lines are not recognised (the Python inner loop only tests the
code and comment-end patterns); at end of input the fold simply stops,
like both Python loops. -/

structure ScanState where
  mode : Option (List Char × Nat)
  code_lines : List ((List Char) × List (Nat × List Char))
  max_line : List ((List Char) × Nat)
  filenames : List (List Char)
deriving DecidableEq

def insertSet (l : List (List Char)) (f : List Char) : List (List Char) :=
  if f ∈ l then l else l ++ [f]

def initScanState : ScanState := ⟨none, [], [], []⟩

/-- Reading the per-file maximum cited line, a defaultdict(int) read. -/
def maxAt (s : ScanState) (f : List Char) : Nat := alookupD s.max_line f 0

/-- Reading the captured code text of one file and line. -/
def codeAt (s : ScanState) (f : List Char) (n : Nat) : Option (List Char) :=
  alookup (alookupD s.code_lines f []) n

/-- One line of the scanning loop. -/
def scanStep (s : ScanState) (l : List Char) : ScanState :=
  match s.mode with
  | none =>
    match match_source_path_line l with
    | none => s
    | some (f, n) =>
      { mode := some (f, n),
        code_lines := s.code_lines,
        max_line := aset s.max_line f (max (alookupD s.max_line f 0) n),
        filenames := insertSet s.filenames f }
  | some (f, n) =>
    match match_current_code_line l with
    | some t =>
      { mode := none,
        code_lines := aset s.code_lines f (aset (alookupD s.code_lines f []) n (rstrip t)),
        max_line := s.max_line,
        filenames := s.filenames }
    | none => if match_comment_end l then { s with mode := none } else s

/-- The whole scanning loop over the artifact text. -/
def scanLines (ls : List (List Char)) : ScanState := ls.foldl scanStep initScanState

/-! ### Decomposing the scan: mode, last write and maximum cited line

The control flow of the scan depends only on the mode and the lines, not
on the accumulated dictionaries.  The next three functions compute, from a
start mode and a list of lines only: the mode after those lines, the last
code text the lines store for a given file and line number, and the
largest line number the lines cite for a given file.  The fold lemmas
below show the scan state is exactly described by them. -/

/-- Mode transition of a single line. -/
def modeStep (m : Option (List Char × Nat)) (l : List Char) : Option (List Char × Nat) :=
  match m with
  | none => match_source_path_line l
  | some fn =>
    match match_current_code_line l with
    | some _ => none
    | none => if match_comment_end l then none else some fn

def modeAfter (m : Option (List Char × Nat)) (ls : List (List Char)) :
    Option (List Char × Nat) :=
  ls.foldl modeStep m

/-- The code text one line stores for file f line n, given the mode. -/
def writeOf (f : List Char) (n : Nat) (m : Option (List Char × Nat)) (l : List Char) :
    Option (List Char) :=
  match m with
  | none => none
  | some (g, k) =>
    if g = f ∧ k = n then (match_current_code_line l).map rstrip else none

/-- The last code text a list of lines stores for file f line n, given the
start mode; none when the lines store nothing for that key. -/
def lastWrite (f : List Char) (n : Nat) : Option (List Char × Nat) → List (List Char) →
    Option (List Char)
  | _, [] => none
  | m, l :: ls => (lastWrite f n (modeStep m l) ls).or (writeOf f n m l)

/-- The line number one line cites for file f as a processed header (0 when
the line is not a header processed in outer mode, or cites another file). -/
def headerCited (f : List Char) (m : Option (List Char × Nat)) (l : List Char) : Nat :=
  match m with
  | none =>
    match match_source_path_line l with
    | some (g, k) => if g = f then k else 0
    | none => 0
  | some _ => 0

/-- The largest line number a list of lines cites for file f in processed
headers, given the start mode. -/
def citedMax (f : List Char) : Option (List Char × Nat) → List (List Char) → Nat
  | _, [] => 0
  | m, l :: ls => max (headerCited f m l) (citedMax f (modeStep m l) ls)

theorem scanStep_mode (s : ScanState) (l : List Char) :
    (scanStep s l).mode = modeStep s.mode l := by
  cases hm : s.mode with
  | none =>
    cases hh : match_source_path_line l with
    | none => simp [scanStep, hm, hh, modeStep]
    | some fn => obtain ⟨f, n⟩ := fn; simp [scanStep, hm, hh, modeStep]
  | some fn =>
    obtain ⟨f, n⟩ := fn
    cases hc : match_current_code_line l with
    | none =>
      by_cases he : match_comment_end l
      · simp [scanStep, hm, hc, modeStep, he]
      · simp [scanStep, hm, hc, modeStep, he]
    | some t => simp [scanStep, hm, hc, modeStep]

theorem scanStep_codeAt (s : ScanState) (l : List Char) (f : List Char) (n : Nat) :
    codeAt (scanStep s l) f n = (writeOf f n s.mode l).or (codeAt s f n) := by
  cases hm : s.mode with
  | none =>
    cases hh : match_source_path_line l with
    | none => simp [scanStep, hm, hh, writeOf, codeAt]
    | some fn => obtain ⟨g, k⟩ := fn; simp [scanStep, hm, hh, writeOf, codeAt]
  | some fn =>
    obtain ⟨g, k⟩ := fn
    cases hc : match_current_code_line l with
    | none =>
      by_cases he : match_comment_end l
      · simp [scanStep, hm, hc, writeOf, codeAt, he]
      · simp [scanStep, hm, hc, writeOf, codeAt, he]
    | some t =>
      by_cases hgk : g = f ∧ k = n
      · obtain ⟨hg, hk⟩ := hgk
        subst hg; subst hk
        simp [scanStep, hm, hc, writeOf, codeAt, alookupD, alookup_aset_self]
      · by_cases hg : g = f
        · have hk : k ≠ n := fun hkk => hgk ⟨hg, hkk⟩
          subst hg
          simp [scanStep, hm, hc, writeOf, codeAt, hgk, hk, alookupD, alookup_aset_self,
            alookup_aset_ne _ _ _ _ (fun hkk => hk hkk.symm)]
        · simp [scanStep, hm, hc, writeOf, codeAt, hgk, codeAt, alookupD,
            alookup_aset_ne _ _ _ _ (fun hgg => hg hgg.symm)]

theorem scanStep_maxAt (s : ScanState) (l : List Char) (f : List Char) :
    maxAt (scanStep s l) f = max (maxAt s f) (headerCited f s.mode l) := by
  cases hm : s.mode with
  | none =>
    cases hh : match_source_path_line l with
    | none => simp [scanStep, hm, hh, headerCited, maxAt]
    | some fn =>
      obtain ⟨g, k⟩ := fn
      by_cases hg : g = f
      · subst hg
        simp [scanStep, hm, hh, headerCited, maxAt, alookupD, alookup_aset_self]
      · simp [scanStep, hm, hh, headerCited, hg, maxAt, alookupD,
          alookup_aset_ne _ _ _ _ (fun hgg => hg hgg.symm)]
  | some fn =>
    obtain ⟨g, k⟩ := fn
    cases hc : match_current_code_line l with
    | none =>
      by_cases he : match_comment_end l
      · simp [scanStep, hm, hc, headerCited, maxAt, he]
      · simp [scanStep, hm, hc, headerCited, maxAt, he]
    | some t => simp [scanStep, hm, hc, headerCited, maxAt]

theorem scan_mode (ls : List (List Char)) :
    ∀ s : ScanState, (ls.foldl scanStep s).mode = modeAfter s.mode ls := by
  induction ls with
  | nil => intro s; simp [modeAfter]
  | cons l ls ih =>
    intro s
    simp only [List.foldl_cons, modeAfter] at *
    rw [ih (scanStep s l), scanStep_mode]

theorem scan_codeAt (ls : List (List Char)) :
    ∀ (s : ScanState) (f : List Char) (n : Nat),
      codeAt (ls.foldl scanStep s) f n = (lastWrite f n s.mode ls).or (codeAt s f n) := by
  induction ls with
  | nil => intro s f n; simp [lastWrite]
  | cons l ls ih =>
    intro s f n
    simp only [List.foldl_cons, lastWrite]
    rw [ih (scanStep s l), scanStep_codeAt, scanStep_mode, Option.or_assoc]

theorem scan_maxAt (ls : List (List Char)) :
    ∀ (s : ScanState) (f : List Char),
      maxAt (ls.foldl scanStep s) f = max (maxAt s f) (citedMax f s.mode ls) := by
  induction ls with
  | nil => intro s f; simp [citedMax]
  | cons l ls ih =>
    intro s f
    simp only [List.foldl_cons, citedMax]
    rw [ih (scanStep s l), scanStep_maxAt, scanStep_mode, Nat.max_assoc]

/-! ## Derived per-file data of a scanned artifact -/

/-- The captured code mapping of one original file (defaultdict read used
by the commit loop at source line 131). -/
def codeOf (ls : List (List Char)) (f : List Char) : List (Nat × List Char) :=
  alookupD (scanLines ls).code_lines f []

/-- The highest line number cited for one original file. -/
def maxLineOf (ls : List (List Char)) (f : List Char) : Nat := maxAt (scanLines ls) f

/-- The statement set the reporter exposes for one file: the keys of its
code-line dictionary (CythonModuleReporter.statements, source line 178). -/
def statementsOf (ls : List (List Char)) (f : List Char) : Finset Nat :=
  keysFinset (codeOf ls f)

/-- The excluded set computed at source lines 121-124:
set(range(1, max_line + 1)) minus the code-line keys. -/
def excludedOf (ls : List (List Char)) (f : List Char) : Finset Nat :=
  Finset.Icc 1 (maxLineOf ls f) \ statementsOf ls f

/-! ## The registry (Plugin._c_files_map) and the commit loop -/

/-- One value of the _c_files_map dictionary: the 4-tuple
(c_file, rel_file_path, code, excluded).  A placeholder entry, inserted by
CythonModuleTracer.dynamic_source_filename at source line 162, has none in
the last two fields. -/
structure RegistryEntry where
  c_file : List Char
  rel_file_path : List Char
  code : Option (List (Nat × List Char))
  excluded : Option (Finset Nat)
deriving DecidableEq

abbrev Registry : Type := List ((List Char) × RegistryEntry)

instance {ε α : Type} [DecidableEq ε] [DecidableEq α] : DecidableEq (Except ε α) := fun a b =>
  match a, b with
  | .error e, .error f =>
    if h : e = f then isTrue (by rw [h]) else isFalse (fun hh => by cases hh; exact h rfl)
  | .ok x, .ok y =>
    if h : x = y then isTrue (by rw [h]) else isFalse (fun hh => by cases hh; exact h rfl)
  | .error _, .ok _ => isFalse (fun hh => by cases hh)
  | .ok _, .error _ => isFalse (fun hh => by cases hh)

/-- The excluded_lines dictionary of source lines 121-124.  It is built
from code_lines.iteritems() only: a file that appears in filenames but
never received a captured code line has no key here. -/
def excluded_lines (s : ScanState) : List ((List Char) × Finset Nat) :=
  s.code_lines.map (fun p => (p.1, Finset.Icc 1 (maxAt s p.1) \ keysFinset p.2))

/-- The commit loop of source lines 129-131.  For each seen filename it
stores (c_file, filename, code_lines[filename], excluded_lines[filename])
under the absolute path of the filename.  code_lines is a defaultdict (the
read defaults to an empty dict) but excluded_lines is a plain dict: when
the filename has no key there, Python raises KeyError, embedded as the
error case. -/
def commitFold (abspath : List Char → List Char) (c_file : List Char) (s : ScanState) :
    List (List Char) → Registry → Except (List Char) Registry
  | [], m => .ok m
  | f :: fs, m =>
    match alookup (excluded_lines s) f with
    | none => .error f
    | some ex =>
      commitFold abspath c_file s fs
        (aset m (abspath f) ⟨c_file, f, some (alookupD s.code_lines f []), some ex⟩)

inductive PyErr where
  | keyError : List Char → PyErr
  | ioError : PyErr
deriving DecidableEq

/-- The filesystem and path environment of the plugin: os.path.abspath,
os.path.exists, opening a file in binary mode and reading it (none models
an IOError or OSError), and opening a text file and iterating its lines
(none models an IOError; each line is given without its trailing
newline). -/
structure Env where
  abspath : List Char → List Char
  fexists : List Char → Bool
  readBytes : List Char → Option (List Char)
  readLines : List Char → Option (List (List Char))

/-- Plugin._parse_lines (source lines 89-135): open the generated file,
scan it, compute the excluded lines, then commit every seen filename into
the registry (creating the registry when it is still None).  The Python
return value, map entries for the requested source file, is ignored by the
only caller; the embedding returns the updated registry.  A failing open
raises IOError (unguarded in the source); a seen filename without captured
code lines raises KeyError from excluded_lines[filename]. -/
def parse_lines (env : Env) (c_file _sourcefile : List Char) (m? : Option Registry) :
    Except PyErr Registry :=
  match env.readLines c_file with
  | none => .error .ioError
  | some ls =>
    let s := scanLines ls
    match commitFold env.abspath c_file s s.filenames (m?.getD []) with
    | .error f => .error (.keyError f)
    | .ok m => .ok m

/-! ## os.path.splitext and Plugin._find_source_files -/

/-- posixpath.splitext: split off the extension beginning at the last dot
of the final path component, unless every character of that component
before the dot is itself a dot (hidden files keep their name whole). -/
def splitext (p : List Char) : List Char × List Char :=
  let bRev := p.reverse.takeWhile (fun c => ¬ (c = '/'))
  let e := bRev.takeWhile (fun c => ¬ (c = '.'))
  if e.length < bRev.length ∧ (bRev.drop (e.length + 1)).any (fun c => ¬ (c = '.')) then
    (p.take (p.length - (e.length + 1)), p.drop (p.length - (e.length + 1)))
  else (p, [])

/-- The lower-cased extension of a path, ext.lower() on splitext's second
component. -/
def lowerExt (p : List Char) : List Char := ((splitext p).2).map Char.toLower

example : splitext ("a/b.c.d").toList = (("a/b.c").toList, (".d").toList) := by decide
example : splitext (".bashrc").toList = ((".bashrc").toList, ([] : List Char)) := by decide
example : splitext ("dir.x/file").toList = (("dir.x/file").toList, ([] : List Char)) := by decide
example : lowerExt ("m.SO").toList = (".so").toList := by decide

/-- The extensions recognised by Plugin._find_source_files (source line
71). -/
def binary_exts : List (List Char) :=
  [(".so").toList, (".dll").toList, (".c").toList, (".cpp").toList]

/-- The probe order of Plugin._find_source_files (source lines 74-79):
basename + .c first, basename + .cpp second, first existing file wins. -/
def probe_c_file (fexists : List Char → Bool) (basename : List Char) : Option (List Char) :=
  if fexists (basename ++ (".c").toList) then some (basename ++ (".c").toList)
  else if fexists (basename ++ (".cpp").toList) then some (basename ++ (".cpp").toList)
  else none

/-- The side probe for a same-stem .py file next to a found C file
(source lines 81-85). -/
def probe_py_file (fexists : List Char → Bool) : Option (List Char) → Option (List Char)
  | some c =>
    if fexists ((splitext c).1 ++ (".py").toList) then
      some ((splitext c).1 ++ (".py").toList)
    else none
  | none => none

/-- Plugin._find_source_files (source lines 69-87): reject unrecognised
extensions without touching the filesystem, else probe basename + .c then
basename + .cpp, first existing file wins; alongside a found C file,
surface a same-stem .py file when it exists. -/
def find_source_files (fexists : List Char → Bool) (filename : List Char) :
    Option (List Char) × Option (List Char) :=
  if lowerExt filename ∈ binary_exts then
    (probe_c_file fexists (splitext filename).1,
     probe_py_file fexists (probe_c_file fexists (splitext filename).1))
  else (none, none)

/-! ## Plugin.file_tracer (source lines 27-55) -/

structure CythonModuleTracer where
  module_file : List Char
  py_file : Option (List Char)
  c_file : List Char
deriving DecidableEq

/-- The generator marker tested against the first 30 bytes of the
candidate artifact (source line 43). -/
def cythonMarker : List Char := ("/* Generated by Cython ").toList

def listStartsWith : List Char → List Char → Bool
  | _, [] => true
  | [], _ :: _ => false
  | a :: as, b :: bs => a = b && listStartsWith as bs

/-- Containment of a contiguous byte sequence, the embedding of the Python
expression needle in haystack on bytes. -/
def listContainsSeq : List Char → List Char → Bool
  | [], nd => listStartsWith [] nd
  | h :: t, nd => listStartsWith (h :: t) nd || listContainsSeq t nd

example : listContainsSeq ("xx/* Generated by Cython 3 */").toList cythonMarker = true := by
  decide
example : listContainsSeq ("/* generated by cython */").toList cythonMarker = false := by
  decide

/-- The candidate C file resolution at the head of Plugin.file_tracer
(source lines 31-39): take the c_file of an existing registry entry for
the absolute path, else derive one with _find_source_files; stop (return
None) when the result is falsy (None or the empty string). -/
def tracerCandidate (env : Env) (m? : Option Registry) (filename : List Char) :
    Option (List Char × Option (List Char)) :=
  let af := env.abspath filename
  let fromMap : Option (List Char) :=
    match m? with
    | some m => if m = ([] : Registry) then none else (alookup m af).map RegistryEntry.c_file
    | none => none
  let cp : Option (List Char) × Option (List Char) :=
    match fromMap with
    | some c => (some c, none)
    | none => find_source_files env.fexists af
  match cp with
  | (none, _) => none
  | (some c, py) => if c = [] then none else some (c, py)

/-- Plugin.file_tracer (source lines 27-55): resolve the candidate C file;
return None without touching the registry when there is none, when opening
it for the marker test fails with IOError or OSError, or when its first 30
bytes do not contain the generator marker; otherwise parse it, commit the
parse into the registry and return a CythonModuleTracer. -/
def file_tracer (env : Env) (m? : Option Registry) (filename : List Char) :
    Except PyErr (Option CythonModuleTracer × Option Registry) :=
  match tracerCandidate env m? filename with
  | none => .ok (none, m?)
  | some (c_file, py_file) =>
    match env.readBytes c_file with
    | none => .ok (none, m?)
    | some bs =>
      if listContainsSeq (bs.take 30) cythonMarker then
        match parse_lines env c_file (env.abspath filename) m? with
        | .error e => .error e
        | .ok m => .ok (some ⟨env.abspath filename, py_file, c_file⟩, some m)
      else .ok (none, m?)

/-! ## CythonModuleReporter and Plugin.file_reporter (source lines 57-67,
166-181) -/

structure CythonModuleReporter where
  c_file : List Char
  source_file : List Char
  name : List Char
  _code : List (Nat × List Char)
  _excluded : Option (Finset Nat)
deriving DecidableEq

/-- CythonModuleReporter.statements (source line 178): the key view of the
code dictionary. -/
def CythonModuleReporter.statements (r : CythonModuleReporter) : Finset Nat :=
  keysFinset r._code

/-- CythonModuleReporter.excluded_statements (source line 181). -/
def CythonModuleReporter.excluded_statements (r : CythonModuleReporter) :
    Option (Finset Nat) :=
  r._excluded

/-- The original-file extensions accepted by Plugin.file_reporter (source
line 58). -/
def pyx_exts : List (List Char) :=
  [(".pyx").toList, (".pxi").toList, (".pxd").toList]

/-- Plugin.file_reporter (source lines 57-67): reject paths without a
recognised original-file extension; reject when the registry is absent or
empty or has no entry for the absolute path; reject placeholder entries
(code is None); otherwise build the reporter. -/
def file_reporter (env : Env) (m? : Option Registry) (filename : List Char) :
    Option CythonModuleReporter :=
  if lowerExt filename ∈ pyx_exts then
    match m? with
    | none => none
    | some m =>
      if m = ([] : Registry) then none
      else
        match alookup m (env.abspath filename) with
        | none => none
        | some e =>
          match e.code with
          | none => none
          | some code =>
            some ⟨e.c_file, env.abspath filename, e.rel_file_path, code, e.excluded⟩
  else none

/-- The full-entry view of the registry for a queried path: the code
mapping when the registry exists and holds a non-placeholder entry for the
absolute path, none otherwise. -/
def registryFullCode (env : Env) (m? : Option Registry) (filename : List Char) :
    Option (List (Nat × List Char)) :=
  match m? with
  | none => none
  | some m =>
    match alookup m (env.abspath filename) with
    | none => none
    | some e => e.code

/-! ## The range invariant of the scan

Whenever a code text is stored for file f at line n, the header that put
the scan into the pending mode for (f, n) has already pushed max_line[f]
to at least n.  Hence every key of the code-line dictionary of f is at
most maxAt f. -/

def ScanBound (f : List Char) (s : ScanState) : Prop :=
  (∀ n : Nat, (codeAt s f n).isSome → n ≤ maxAt s f) ∧
  (∀ k : Nat, s.mode = some (f, k) → k ≤ maxAt s f)

theorem writeOf_mode (f : List Char) (n : Nat) (m : Option (List Char × Nat)) (l : List Char)
    (h : (writeOf f n m l).isSome) : m = some (f, n) := by
  cases m with
  | none => simp [writeOf] at h
  | some gk =>
    obtain ⟨g, k⟩ := gk
    by_cases hgk : g = f ∧ k = n
    · rw [hgk.1, hgk.2]
    · simp [writeOf, hgk] at h

theorem scanStep_bound (f : List Char) (s : ScanState) (l : List Char)
    (h : ScanBound f s) : ScanBound f (scanStep s l) := by
  have hmax : maxAt s f ≤ maxAt (scanStep s l) f := by
    rw [scanStep_maxAt]; exact Nat.le_max_left _ _
  constructor
  · intro n hn
    rw [scanStep_codeAt] at hn
    cases hw : writeOf f n s.mode l with
    | some t =>
      have hm := writeOf_mode f n s.mode l (by rw [hw]; rfl)
      exact le_trans (h.2 n hm) hmax
    | none =>
      rw [hw, Option.none_or] at hn
      exact le_trans (h.1 n hn) hmax
  · intro k hk
    rw [scanStep_mode] at hk
    cases hm : s.mode with
    | none =>
      rw [hm] at hk
      simp only [modeStep] at hk
      rw [scanStep_maxAt, hm]
      simp only [headerCited, hk, if_pos rfl]
      exact Nat.le_max_right _ _
    | some gk =>
      obtain ⟨g, k0⟩ := gk
      rw [hm] at hk
      simp only [modeStep] at hk
      cases hc : match_current_code_line l with
      | some t => rw [hc] at hk; simp at hk
      | none =>
        rw [hc] at hk
        by_cases he : match_comment_end l
        · simp [he] at hk
        · rw [if_neg he] at hk
          exact le_trans (h.2 k (hm.trans hk)) hmax

theorem scan_bound (ls : List (List Char)) (f : List Char) : ScanBound f (scanLines ls) := by
  have hinit : ScanBound f initScanState := by
    constructor
    · intro n hn
      simp [codeAt, initScanState, alookupD, alookup] at hn
    · intro k hk
      simp [initScanState] at hk
  have hstep : ∀ s : ScanState, ScanBound f s → ScanBound f (ls.foldl scanStep s) := by
    induction ls with
    | nil => intro s hs; exact hs
    | cons l ls ih =>
      intro s hs
      exact ih (scanStep s l) (scanStep_bound f s l hs)
  exact hstep initScanState hinit

theorem statements_le_maxLine (ls : List (List Char)) (f : List Char) (n : Nat)
    (hn : n ∈ statementsOf ls f) : n ≤ maxLineOf ls f := by
  have hs : (codeAt (scanLines ls) f n).isSome := by
    have := (mem_keysFinset (codeOf ls f) n).mp hn
    simpa [codeAt, codeOf] using this
  exact (scan_bound ls f).1 n hs

/-! ## Claims -/

/-- Artifact for the round-trip claim C5: a path-header line citing
foo.pyx line 10 immediately followed by a marked code-text line. -/
def artifactRound : List (List Char) :=
  [("/* \"foo.pyx\":10").toList, (" * x = 1 # <<<<<<<<").toList]

/-- C5: an artifact containing the header citing foo.pyx at line 10
immediately followed by the code-text line star x = 1 hash markers yields
codeLines[10] = "x = 1" (trailing whitespace trimmed) and 10 a member of
statements(foo.pyx). -/
theorem claim_C5 :
    alookup (codeOf artifactRound (("foo.pyx").toList)) 10 = some (("x = 1").toList) ∧
    10 ∈ statementsOf artifactRound (("foo.pyx").toList) := by decide

/-- Artifact exercising the exclusion scenario: code captured at line 1,
a header citing line 3 closed by a comment-end line. -/
def artifactExcl : List (List Char) :=
  [("/* \"m.pyx\":1").toList, (" * a # <<<<<<<<").toList,
   ("/* \"m.pyx\":3").toList, (" */").toList]

/-- C1 (amended): for every scanned artifact and every original file F,
the statement set and the excluded set are disjoint, and, provided every
captured line number of F is at least 1, their union is exactly the range
1 .. maxLine(F).  (The proviso is forced: a header citing line 0 puts 0
into the statement set while the excluded range starts at 1, see the
counterexample.) -/
theorem claim_C1 (ls : List (List Char)) (f : List Char)
    (h1 : ∀ n ∈ statementsOf ls f, 1 ≤ n) :
    statementsOf ls f ∩ excludedOf ls f = ∅ ∧
    statementsOf ls f ∪ excludedOf ls f = Finset.Icc 1 (maxLineOf ls f) := by
  constructor
  · ext n
    simp only [excludedOf, Finset.mem_inter, Finset.mem_sdiff, Finset.not_mem_empty,
      iff_false]
    tauto
  · have hsub : statementsOf ls f ⊆ Finset.Icc 1 (maxLineOf ls f) := by
      intro n hn
      exact Finset.mem_Icc.mpr ⟨h1 n hn, statements_le_maxLine ls f n hn⟩
    exact Finset.union_sdiff_of_subset hsub

/-- Witness for C1 at the exclusion-scenario artifact: statements = {1},
excluded = {2, 3}, both provisos checked concretely. -/
theorem claim_C1_witness :
    statementsOf artifactExcl (("m.pyx").toList) ∩ excludedOf artifactExcl (("m.pyx").toList)
      = ∅ ∧
    statementsOf artifactExcl (("m.pyx").toList) ∪ excludedOf artifactExcl (("m.pyx").toList)
      = Finset.Icc 1 (maxLineOf artifactExcl (("m.pyx").toList)) :=
  claim_C1 artifactExcl (("m.pyx").toList) (by decide)

/-- Artifact refuting C1 as stated: the header cites line number 0, which
the digit group of the header pattern accepts. -/
def artifactZero : List (List Char) :=
  [("/* \"foo.pyx\":0").toList, (" * x = 1 # <<<<<<<<").toList]

/-- C1 counterexample: on an artifact citing foo.pyx line 0 with a
captured code line, statements = {0} and maxLine = 0, so the union of the
statement set and the excluded set is {0}, not the range 1 .. 0 = empty:
the invariant as stated fails. -/
theorem claim_C1_counterexample :
    ¬ (statementsOf artifactZero (("foo.pyx").toList)
         ∩ excludedOf artifactZero (("foo.pyx").toList) = ∅ ∧
       statementsOf artifactZero (("foo.pyx").toList)
         ∪ excludedOf artifactZero (("foo.pyx").toList)
         = Finset.Icc 1 (maxLineOf artifactZero (("foo.pyx").toList))) := by decide

/-- Artifact for C2: m.pyx appears in a header line, the annotation block
is closed by a comment-end line, and no code-text line is ever captured
for m.pyx. -/
def artifactHeaderOnly : List (List Char) :=
  [("/* \"m.pyx\":1").toList, (" */").toList]

def envHeaderOnly : Env :=
  ⟨fun p => p, fun _ => false, fun _ => none, fun _ => some artifactHeaderOnly⟩

/-- C2 (code bug): m.pyx is seen (it is in filenames with maxLine 1) and
has no captured code line, and instead of committing a record with an
empty codeLines and excludedLines = {1}, _parse_lines raises KeyError on
excluded_lines[filename]: the excluded_lines dict is built from
code_lines.iteritems() only, which has no key for m.pyx. -/
theorem claim_C2 :
    (scanLines artifactHeaderOnly).filenames = [("m.pyx").toList] ∧
    maxLineOf artifactHeaderOnly (("m.pyx").toList) = 1 ∧
    codeOf artifactHeaderOnly (("m.pyx").toList) = [] ∧
    parse_lines envHeaderOnly (("mod.c").toList) (("m.pyx").toList) none
      = .error (.keyError (("m.pyx").toList)) := by decide

/-- Artifact for C3: a header line with no subsequent matching code-text
or comment-end line before end-of-input. -/
def artifactTruncated : List (List Char) := [("/* \"n.pyx\":3").toList]

def envTruncated : Env :=
  ⟨fun p => p, fun _ => false, fun _ => none, fun _ => some artifactTruncated⟩

/-- C3 (code bug): on a truncated artifact whose last line is a header
with no following code-text or comment-end line, the scanning loop itself
stops cleanly at end-of-input, but _parse_lines then raises KeyError while
deriving the excluded lines (n.pyx is in filenames but not in code_lines),
so an exception does propagate for this malformed input. -/
theorem claim_C3 :
    (scanLines artifactTruncated).mode = some ((("n.pyx").toList, 3)) ∧
    (scanLines artifactTruncated).filenames = [("n.pyx").toList] ∧
    parse_lines envTruncated (("mod.c").toList) (("n.pyx").toList) none
      = .error (.keyError (("n.pyx").toList)) := by decide

/-! ## The commit loop and claim C4 -/

/-- A successful commit leaves every key outside the committed filenames
untouched. -/
theorem commitFold_lookup_notmem (abspath : List Char → List Char) (c_file : List Char)
    (s : ScanState) (fs : List (List Char)) :
    ∀ (m m' : Registry) (k : List Char),
      commitFold abspath c_file s fs m = .ok m' → (∀ g ∈ fs, abspath g ≠ k) →
      alookup m' k = alookup m k := by
  induction fs with
  | nil =>
    intro m m' k hok hk
    unfold commitFold at hok
    cases hok
    rfl
  | cons g fs ih =>
    intro m m' k hok hk
    unfold commitFold at hok
    cases hex : alookup (excluded_lines s) g with
    | none => rw [hex] at hok; cases hok
    | some ex =>
      rw [hex] at hok
      have hrest := ih _ m' k hok (fun g' hg' => hk g' (List.mem_cons_of_mem _ hg'))
      rw [hrest, alookup_aset_ne _ _ _ _ (Ne.symm (hk g (List.mem_cons_self _ _)))]

/-- A successful commit stores, under the absolute path of each seen
filename (not aliased by another seen filename), the freshly parsed full
entry, whatever the prior registry held there. -/
theorem commitFold_upsert (abspath : List Char → List Char) (c_file : List Char)
    (s : ScanState) (fs : List (List Char)) :
    ∀ (m m' : Registry) (f : List Char), f ∈ fs →
      (∀ g ∈ fs, abspath g = abspath f → g = f) →
      commitFold abspath c_file s fs m = .ok m' →
      alookup m' (abspath f)
        = some ⟨c_file, f, some (alookupD s.code_lines f []),
            some (Finset.Icc 1 (maxAt s f) \ keysFinset (alookupD s.code_lines f []))⟩ := by
  induction fs with
  | nil => intro m m' f hmem _ _; cases hmem
  | cons g fs ih =>
    intro m m' f hmem hinj hok
    unfold commitFold at hok
    cases hex : alookup (excluded_lines s) g with
    | none => rw [hex] at hok; cases hok
    | some ex =>
      rw [hex] at hok
      by_cases hf : f ∈ fs
      · exact ih _ m' f hf (fun g' hg' ha => hinj g' (List.mem_cons_of_mem _ hg') ha) hok
      · have hfg : f = g := by
          rcases List.mem_cons.mp hmem with h | h
          · exact h
          · exact absurd h hf
        subst hfg
        have hne : ∀ g' ∈ fs, abspath g' ≠ abspath f := by
          intro g' hg' heq
          exact hf (hinj g' (List.mem_cons_of_mem _ hg') heq ▸ hg')
        have hpres := commitFold_lookup_notmem abspath c_file s fs _ m' (abspath f) hok hne
        rw [hpres, alookup_aset_self]
        have hex' : (alookup s.code_lines f).map
            (fun b => Finset.Icc 1 (maxAt s f) \ keysFinset b) = some ex := by
          rw [← alookup_map_snd s.code_lines
            (fun a b => Finset.Icc 1 (maxAt s a) \ keysFinset b) f]
          exact hex
        cases hcl : alookup s.code_lines f with
        | none => rw [hcl] at hex'; cases hex'
        | some cl =>
          rw [hcl] at hex'
          have hex2 : Finset.Icc 1 (maxAt s f) \ keysFinset cl = ex := by
            simpa using hex'
          have hD : alookupD s.code_lines f [] = cl := by simp [alookupD, hcl]
          rw [hD, ← hex2]

/-- C4 (amended): committing parse results into the registry is an
unconditional upsert.  For every prior registry m, every seen filename f
whose absolute path is not shared by another seen filename, and every
successful commit, the resulting registry maps abspath f to the freshly
parsed full entry, whatever entry (placeholder, full entry of an earlier
parse, or nothing) the key held in m before. -/
theorem claim_C4 (abspath : List Char → List Char) (c_file : List Char) (s : ScanState)
    (fs : List (List Char)) (m m' : Registry) (f : List Char)
    (hmem : f ∈ fs) (hinj : ∀ g ∈ fs, abspath g = abspath f → g = f)
    (hok : commitFold abspath c_file s fs m = .ok m') :
    alookup m' (abspath f)
      = some ⟨c_file, f, some (alookupD s.code_lines f []),
          some (Finset.Icc 1 (maxAt s f) \ keysFinset (alookupD s.code_lines f []))⟩ :=
  commitFold_upsert abspath c_file s fs m m' f hmem hinj hok

/-- The two artifacts of the C4 counterexample: two different generated
files both citing the shared include file inc.pxi at line 1, with
different code texts. -/
def artifactInc1 : List (List Char) :=
  [("/* \"inc.pxi\":1").toList, (" * a = 1 # <<<<<<<<").toList]

def artifactInc2 : List (List Char) :=
  [("/* \"inc.pxi\":1").toList, (" * b = 2 # <<<<<<<<").toList]

def envInc1 : Env := ⟨fun p => p, fun _ => false, fun _ => none, fun _ => some artifactInc1⟩

def envInc2 : Env := ⟨fun p => p, fun _ => false, fun _ => none, fun _ => some artifactInc2⟩

/-- The registry after parsing the first artifact into an empty registry. -/
def regInc1 : Registry :=
  (parse_lines envInc1 (("mod1.c").toList) (("inc.pxi").toList) none).toOption.getD []

/-- The registry after parsing the second artifact on top of the first. -/
def regInc2 : Registry :=
  (parse_lines envInc2 (("mod2.c").toList) (("inc.pxi").toList) (some regInc1)).toOption.getD []

/-- C4 counterexample: after the first parse the registry holds a full
(non-placeholder) entry for inc.pxi recording artifact mod1.c; the second
parse commits over it and the entry changes, now recording artifact
mod2.c: a full entry is overwritten by a later commit from a different
parse. -/
theorem claim_C4_counterexample :
    ((alookup regInc1 (("inc.pxi").toList)).bind RegistryEntry.code).isSome ∧
    (alookup regInc1 (("inc.pxi").toList)).map RegistryEntry.c_file
      = some (("mod1.c").toList) ∧
    (alookup regInc2 (("inc.pxi").toList)).map RegistryEntry.c_file
      = some (("mod2.c").toList) ∧
    alookup regInc2 (("inc.pxi").toList) ≠ alookup regInc1 (("inc.pxi").toList) := by decide

/-- Witness for C4 at the counterexample scenario: committing the second
parse on top of regInc1 lands the freshly parsed entry for inc.pxi. -/
theorem claim_C4_witness :
    alookup regInc2 ((fun p => p) (("inc.pxi").toList))
      = some ⟨("mod2.c").toList, ("inc.pxi").toList,
          some (alookupD (scanLines artifactInc2).code_lines (("inc.pxi").toList) []),
          some (Finset.Icc 1 (maxAt (scanLines artifactInc2) (("inc.pxi").toList))
            \ keysFinset (alookupD (scanLines artifactInc2).code_lines
                (("inc.pxi").toList) []))⟩ :=
  claim_C4 (fun p => p) (("mod2.c").toList) (scanLines artifactInc2)
    (scanLines artifactInc2).filenames regInc1 regInc2 (("inc.pxi").toList)
    (by decide) (by decide) (by decide)

/-- C6: in an artifact where the same file f and line n are cited by two
header lines, each followed by a captured code-text line, the later
capture wins: the stored code text for (f, n) is the rstrip of the second
code line, and maxLine of f equals the larger of the two cited numbers
joined with everything else the artifact cites for f (it does not grow
beyond the larger of the two).  The hypotheses state the scenario: the
surrounding segments leave the scanner in outer mode at both headers (so
that both code lines really are captured for (f, n)), and the trailing
segment stores nothing further for (f, n). -/
theorem claim_C6 (A B C : List (List Char)) (hline1 cline1 hline2 cline2 : List Char)
    (f : List Char) (n : Nat) (t1 t2 : List Char)
    (hh1 : match_source_path_line hline1 = some (f, n))
    (hc1 : match_current_code_line cline1 = some t1)
    (hh2 : match_source_path_line hline2 = some (f, n))
    (hc2 : match_current_code_line cline2 = some t2)
    (hA : modeAfter none A = none)
    (hB : modeAfter none B = none)
    (hC : lastWrite f n none C = none) :
    codeAt (scanLines (A ++ [hline1, cline1] ++ B ++ [hline2, cline2] ++ C)) f n
      = some (rstrip t2) ∧
    maxAt (scanLines (A ++ [hline1, cline1] ++ B ++ [hline2, cline2] ++ C)) f
      = max n (maxAt (scanLines (A ++ B ++ C)) f) := by
  have hfold : scanLines (A ++ [hline1, cline1] ++ B ++ [hline2, cline2] ++ C)
      = C.foldl scanStep (scanStep (scanStep (B.foldl scanStep
          (scanStep (scanStep (A.foldl scanStep initScanState) hline1) cline1))
          hline2) cline2) := by
    simp [scanLines, List.foldl_append]
  have hfoldR : scanLines (A ++ B ++ C)
      = C.foldl scanStep (B.foldl scanStep (A.foldl scanStep initScanState)) := by
    simp [scanLines, List.foldl_append]
  rw [hfold, hfoldR]
  set s0 := A.foldl scanStep initScanState with hs0
  set s0' := scanStep s0 hline1 with hs0'
  set s1 := scanStep s0' cline1 with hs1
  set s2 := B.foldl scanStep s1 with hs2
  set s2' := scanStep s2 hline2 with hs2'
  set s3 := scanStep s2' cline2 with hs3
  have hm0 : s0.mode = none := by rw [hs0, scan_mode]; exact hA
  have hm0' : s0'.mode = some (f, n) := by
    rw [hs0', scanStep_mode, hm0]
    simp [modeStep, hh1]
  have hm1 : s1.mode = none := by
    rw [hs1, scanStep_mode, hm0']
    simp [modeStep, hc1]
  have hm2 : s2.mode = none := by rw [hs2, scan_mode, hm1]; exact hB
  have hm2' : s2'.mode = some (f, n) := by
    rw [hs2', scanStep_mode, hm2]
    simp [modeStep, hh2]
  have hm3 : s3.mode = none := by
    rw [hs3, scanStep_mode, hm2']
    simp [modeStep, hc2]
  constructor
  · rw [scan_codeAt, hm3, hC, Option.none_or, hs3, scanStep_codeAt, hm2']
    simp [writeOf, hc2, Option.or]
  · have hMF : maxAt (C.foldl scanStep s3) f = max (maxAt s3 f) (citedMax f none C) := by
      rw [scan_maxAt, hm3]
    have hM3 : maxAt s3 f = max (maxAt s2 f) n := by
      rw [hs3, scanStep_maxAt, hm2', hs2', scanStep_maxAt, hm2]
      simp [headerCited, hh2]
    have hM2 : maxAt s2 f = max (maxAt s1 f) (citedMax f none B) := by
      rw [hs2, scan_maxAt, hm1]
    have hM1 : maxAt s1 f = max (maxAt s0 f) n := by
      rw [hs1, scanStep_maxAt, hm0', hs0', scanStep_maxAt, hm0]
      simp [headerCited, hh1]
    have hRB : (B.foldl scanStep s0).mode = none := by rw [scan_mode, hm0]; exact hB
    have hMR : maxAt (C.foldl scanStep (B.foldl scanStep s0)) f
        = max (max (maxAt s0 f) (citedMax f none B)) (citedMax f none C) := by
      rw [scan_maxAt, hRB, scan_maxAt, hm0]
    rw [hMF, hM3, hM2, hM1, hMR]
    omega

/-- The duplicate-header witness artifact lines for C6. -/
def hlineW : List Char := ("/* \"w.pyx\":4").toList

def clineW1 : List Char := (" * a = 1 # <<<<<<<<").toList

def clineW2 : List Char := (" * b = 2 # <<<<<<<<").toList

/-- Witness for C6: with empty surrounding segments and the same header
citing w.pyx line 4 twice, the stored text is the second one, b = 2, and
maxLine is 4. -/
theorem claim_C6_witness :
    codeAt (scanLines (([] : List (List Char)) ++ [hlineW, clineW1] ++ []
        ++ [hlineW, clineW2] ++ [])) (("w.pyx").toList) 4
      = some (rstrip (("b = 2").toList)) ∧
    maxAt (scanLines (([] : List (List Char)) ++ [hlineW, clineW1] ++ []
        ++ [hlineW, clineW2] ++ [])) (("w.pyx").toList)
      = max 4 (maxAt (scanLines (([] : List (List Char)) ++ [] ++ []))
          (("w.pyx").toList)) :=
  claim_C6 [] [] [] hlineW clineW1 hlineW clineW2 (("w.pyx").toList) 4
    (("a = 1").toList) (("b = 2").toList)
    (by decide) (by decide) (by decide) (by decide) (by decide) (by decide) (by decide)

/-- C7: whenever the candidate artifact resolution of file_tracer yields a
file whose binary open fails with an I/O error, or whose first 30 bytes do
not contain the generator marker, file_tracer returns None and leaves the
registry exactly as it was: no tracer, no mapping, no exception. -/
theorem claim_C7 (env : Env) (m? : Option Registry) (p c : List Char)
    (py : Option (List Char))
    (hc : tracerCandidate env m? p = some (c, py))
    (hbad : env.readBytes c = none ∨
      listContainsSeq (((env.readBytes c).getD []).take 30) cythonMarker = false) :
    file_tracer env m? p = .ok (none, m?) := by
  unfold file_tracer
  rw [hc]
  cases hb : env.readBytes c with
  | none => simp [hb]
  | some bs =>
    rcases hbad with h | h
    · rw [hb] at h; cases h
    · rw [hb] at h
      simp only [Option.getD_some] at h
      simp [hb, h]

/-- A concrete environment whose only existing file m.c carries no
generator marker in its content. -/
def envNoMarker : Env :=
  ⟨fun p => p, fun q => q = ("m.c").toList,
   fun _ => some (("int main;").toList), fun _ => none⟩

/-- A concrete environment in which every open fails with an I/O error. -/
def envIOFail : Env :=
  ⟨fun p => p, fun q => q = ("m.c").toList, fun _ => none, fun _ => none⟩

/-- Witness for C7: both the marker-less candidate and the unreadable
candidate make file_tracer return None with the registry untouched. -/
theorem claim_C7_witness :
    file_tracer envNoMarker none (("m.so").toList) = .ok (none, none) ∧
    file_tracer envIOFail none (("m.so").toList) = .ok (none, none) :=
  ⟨claim_C7 envNoMarker none (("m.so").toList) (("m.c").toList) none
      (by decide) (Or.inr (by decide)),
   claim_C7 envIOFail none (("m.so").toList) (("m.c").toList) none
      (by decide) (Or.inl (by decide))⟩

/-- C8: a requested path whose lower-cased extension is outside the
recognised set receives the answer (none, none) independently of the
filesystem (no probe can influence the result); a path with a recognised
extension is answered by probing stem.c first and stem.cpp second, the
first existing file winning. -/
theorem claim_C8 (fx fx' : List Char → Bool) (p : List Char) :
    (lowerExt p ∉ binary_exts →
      find_source_files fx p = (none, none) ∧
      find_source_files fx p = find_source_files fx' p) ∧
    (lowerExt p ∈ binary_exts →
      (find_source_files fx p).1 =
        (if fx ((splitext p).1 ++ (".c").toList) then
          some ((splitext p).1 ++ (".c").toList)
        else if fx ((splitext p).1 ++ (".cpp").toList) then
          some ((splitext p).1 ++ (".cpp").toList)
        else none)) := by
  constructor
  · intro h
    constructor
    · simp [find_source_files, h]
    · simp [find_source_files, h]
  · intro h
    simp [find_source_files, h, probe_c_file]

/-- A concrete filesystem for the C8 witness: only a.cpp exists. -/
def fsOnlyCpp : List Char → Bool := fun q => q = ("a.cpp").toList

/-- Witness for C8: a .txt request resolves to (none, none) on any
filesystem, and an .so request probes a.c before a.cpp, finding a.cpp
here. -/
theorem claim_C8_witness :
    (find_source_files fsOnlyCpp (("a.txt").toList) = (none, none) ∧
     find_source_files fsOnlyCpp (("a.txt").toList)
       = find_source_files (fun _ => true) (("a.txt").toList)) ∧
    (find_source_files fsOnlyCpp (("a.so").toList)).1 =
      (if fsOnlyCpp ((splitext (("a.so").toList)).1 ++ (".c").toList) then
        some ((splitext (("a.so").toList)).1 ++ (".c").toList)
      else if fsOnlyCpp ((splitext (("a.so").toList)).1 ++ (".cpp").toList) then
        some ((splitext (("a.so").toList)).1 ++ (".cpp").toList)
      else none) :=
  ⟨(claim_C8 fsOnlyCpp (fun _ => true) (("a.txt").toList)).1 (by decide),
   (claim_C8 fsOnlyCpp fsOnlyCpp (("a.so").toList)).2 (by decide)⟩

/-- C9: the reporter surface answers only for paths with a recognised
original-file extension whose absolute path has a full registry entry;
when the registry holds nothing or only a placeholder for the path, the
query returns none. -/
theorem claim_C9 (env : Env) (m? : Option Registry) (p : List Char) :
    (registryFullCode env m? p = none → file_reporter env m? p = none) ∧
    (∀ r : CythonModuleReporter, file_reporter env m? p = some r →
      lowerExt p ∈ pyx_exts ∧ (registryFullCode env m? p).isSome) := by
  constructor
  · intro h
    by_cases hext : lowerExt p ∈ pyx_exts
    · cases m? with
      | none => simp [file_reporter, hext]
      | some m =>
        by_cases hm : m = ([] : Registry)
        · simp [file_reporter, hext, hm]
        · cases he : alookup m (env.abspath p) with
          | none => simp [file_reporter, hext, hm, he]
          | some e =>
            have hcode : e.code = none := by
              simpa [registryFullCode, he] using h
            simp [file_reporter, hext, hm, he, hcode]
    · simp [file_reporter, hext]
  · intro r hr
    by_cases hext : lowerExt p ∈ pyx_exts
    · refine ⟨hext, ?_⟩
      cases m? with
      | none => simp [file_reporter, hext] at hr
      | some m =>
        by_cases hm : m = ([] : Registry)
        · simp [file_reporter, hext, hm] at hr
        · cases he : alookup m (env.abspath p) with
          | none => simp [file_reporter, hext, hm, he] at hr
          | some e =>
            cases hcode : e.code with
            | none => simp [file_reporter, hext, hm, he, hcode] at hr
            | some code => simp [registryFullCode, he, hcode]
    · simp [file_reporter, hext] at hr

/-- A registry holding only a placeholder entry for p.pyx, as inserted by
CythonModuleTracer.dynamic_source_filename. -/
def regPlaceholder : Registry :=
  [((("p.pyx").toList), ⟨("p.c").toList, ("p.pyx").toList, none, none⟩)]

def envId : Env := ⟨fun p => p, fun _ => false, fun _ => none, fun _ => none⟩

/-- Witness for C9: querying the reporter for p.pyx against a placeholder
entry answers none. -/
theorem claim_C9_witness :
    file_reporter envId (some regPlaceholder) (("p.pyx").toList) = none :=
  (claim_C9 envId (some regPlaceholder) (("p.pyx").toList)).1 (by decide)

/-! ## Claim C10: the shape of captured code-text lines -/

theorem takeWhile_const_eq_replicate (l : List Char) (a : Char) :
    l.takeWhile (fun c => c = a)
      = List.replicate (l.takeWhile (fun c => c = a)).length a := by
  induction l with
  | nil => rfl
  | cons c l ih =>
    by_cases h : c = a
    · subst h
      simp [List.takeWhile_cons, List.replicate_succ]
      exact ih
    · simp [List.takeWhile_cons, h]

theorem dropWhile_replicate_append_cons (p : Char → Bool) (k : Nat) (a b : Char)
    (l : List Char) (ha : p a = true) (hb : p b = false) :
    (List.replicate k a ++ b :: l).dropWhile p = b :: l := by
  induction k with
  | zero => simp [List.dropWhile_cons, hb]
  | succ k ih => simp [List.replicate_succ, List.dropWhile_cons, ha, ih]

theorem takeWhile_replicate_append_cons (p : Char → Bool) (k : Nat) (a b : Char)
    (l : List Char) (ha : p a = true) (hb : p b = false) :
    (List.replicate k a ++ b :: l).takeWhile p = List.replicate k a := by
  induction k with
  | zero => simp [List.takeWhile_cons, hb]
  | succ k ih => simp [List.takeWhile_cons, List.replicate_succ, ha, ih]

/-- C10: a comment line is captured as a code-text line exactly when it
decomposes as optional leading spaces, a star and one space, arbitrary
text, then the literal separator space hash space immediately followed by
a run of 6 or more less-than characters reaching the end of the line.  In
particular a line whose content merely ends in 6 or more less-than
characters without the preceding separator is never captured.  (Lines of
a text file never contain a newline, whence the hypothesis.) -/
theorem claim_C10 (l : List Char) (_hnl : '\n' ∉ l) :
    (match_current_code_line l).isSome = true ↔
      ∃ (sp : Nat) (t : List Char) (k : Nat), 6 ≤ k ∧
        l = List.replicate sp ' ' ++ '*' :: ' '
          :: (t ++ ' ' :: '#' :: ' ' :: List.replicate k '<') := by
  constructor
  · intro h
    unfold match_current_code_line at h
    cases hd : l.dropWhile (fun c => c = ' ') with
    | nil => simp only [hd] at h; simp at h
    | cons c1 d1 =>
      cases d1 with
      | nil => simp only [hd] at h; simp at h
      | cons c2 rest =>
        simp only [hd] at h
        by_cases h12 : c1 = '*' ∧ c2 = ' '
        · obtain ⟨h1, h2⟩ := h12
          subst h1; subst h2
          rw [if_pos ⟨rfl, rfl⟩] at h
          by_cases h6 : 6 ≤ (rest.reverse.takeWhile (fun c => c = '<')).length
          · rw [if_pos h6] at h
            cases he : rest.reverse.dropWhile (fun c => c = '<') with
            | nil => simp only [he] at h; simp at h
            | cons e1 dw1 =>
              cases dw1 with
              | nil => simp only [he] at h; simp at h
              | cons e2 dw2 =>
                cases dw2 with
                | nil => simp only [he] at h; simp at h
                | cons e3 grev =>
                  simp only [he] at h
                  by_cases hsep : e1 = ' ' ∧ e2 = '#' ∧ e3 = ' '
                  · obtain ⟨hs1, hs2, hs3⟩ := hsep
                    subst hs1; subst hs2; subst hs3
                    obtain ⟨sp, hsp⟩ : ∃ sp, l.takeWhile (fun c => c = ' ')
                        = List.replicate sp ' ' :=
                      ⟨_, takeWhile_const_eq_replicate l ' '⟩
                    obtain ⟨k, hk⟩ : ∃ k, rest.reverse.takeWhile (fun c => c = '<')
                        = List.replicate k '<' :=
                      ⟨_, takeWhile_const_eq_replicate rest.reverse '<'⟩
                    have h6' : 6 ≤ k := by
                      rw [hk, List.length_replicate] at h6
                      exact h6
                    have hl : l = List.replicate sp ' ' ++ '*' :: ' ' :: rest := by
                      have h0 := (List.takeWhile_append_dropWhile
                        (fun c => c = ' ') l).symm
                      rw [hd, hsp] at h0
                      exact h0
                    have hrest : rest = grev.reverse ++ ' ' :: '#' :: ' '
                        :: List.replicate k '<' := by
                      have h0 := (List.takeWhile_append_dropWhile
                        (fun c => c = '<') rest.reverse).symm
                      rw [he, hk] at h0
                      have h2 := congrArg List.reverse h0
                      rw [List.reverse_reverse] at h2
                      simpa using h2
                    exact ⟨sp, grev.reverse, k, h6', by rw [hl, hrest]⟩
                  · rw [if_neg hsep] at h; simp at h
          · rw [if_neg h6] at h; simp at h
        · rw [if_neg h12] at h; simp at h
  · rintro ⟨sp, t, k, h6, rfl⟩
    have hdw : (List.replicate sp ' ' ++ '*' :: ' '
        :: (t ++ ' ' :: '#' :: ' ' :: List.replicate k '<')).dropWhile
          (fun c => c = ' ')
        = '*' :: ' ' :: (t ++ ' ' :: '#' :: ' ' :: List.replicate k '<') :=
      dropWhile_replicate_append_cons _ sp ' ' '*' _ (by decide) (by decide)
    have hrev : (t ++ ' ' :: '#' :: ' ' :: List.replicate k '<').reverse
        = List.replicate k '<' ++ ' ' :: '#' :: ' ' :: t.reverse := by
      simp [List.reverse_append]
    have htw : ((t ++ ' ' :: '#' :: ' ' :: List.replicate k '<').reverse).takeWhile
        (fun c => c = '<') = List.replicate k '<' := by
      rw [hrev]
      exact takeWhile_replicate_append_cons _ k '<' ' ' _ (by decide) (by decide)
    have hdw2 : ((t ++ ' ' :: '#' :: ' ' :: List.replicate k '<').reverse).dropWhile
        (fun c => c = '<') = ' ' :: '#' :: ' ' :: t.reverse := by
      rw [hrev]
      exact dropWhile_replicate_append_cons _ k '<' ' ' _ (by decide) (by decide)
    unfold match_current_code_line
    simp only [hdw, htw, hdw2, List.length_replicate]
    rw [if_pos h6]
    simp

/-- Witness for C10 at a concrete line: star space x space hash space and
eight markers is captured. -/
theorem claim_C10_witness :
    (match_current_code_line ((" * x # <<<<<<<<").toList)).isSome = true :=
  (claim_C10 ((" * x # <<<<<<<<").toList) (by decide)).mpr
    ⟨1, ("x").toList, 8, by decide, by decide⟩

end CoveragePy
